import Mathlib

/-!
Shallow embedding of the address-book module in `src/inital.py`.

Python objects become Lean structures; in-place mutation becomes explicit
state passing (each mutating method returns the new state); `print`-based
reporting becomes an explicit list of emitted messages; `raise ValueError`
becomes `Except String`.  Object identity of `Phone` instances (needed to
talk about in-place mutation versus replacement) is modelled by tagging
each constructed `Phone` with a fresh numeric id drawn from a per-record
counter.
-/

/-- The check `re.fullmatch` of ten digit characters against `s`: `s` consists of
exactly 10 decimal digit characters.  (`Phone.__init__`, line 36.) -/
def phoneValid (s : String) : Bool :=
  s.length == 10 && s.data.all Char.isDigit

/-- Python `Phone.__init__` (lines 35-38): raises `ValueError` with the message
below unless the candidate is exactly 10 digits; on success the held
value is the candidate itself. -/
def mkPhone (s : String) : Except String String :=
  if phoneValid s then Except.ok s
  else Except.error "The phone should contain 10 digits"

/-- Python `Name.__init__` (lines 23-26): rejects the empty string. -/
def mkName (s : String) : Except String String :=
  if s.isEmpty then Except.error "Name can\x27t be empty" else Except.ok s

/-- A stored `Phone` object: its held string plus an identity tag that
stands for the Python object identity. -/
structure PhoneObj where
  id : Nat
  value : String
deriving DecidableEq

/-- A `Record`: a (validated) contact name, the ordered list of `Phone`
objects, and the counter supplying fresh identity tags. -/
structure Record where
  name : String
  phones : List PhoneObj
  nextId : Nat
deriving DecidableEq

/-- Python `Record.__init__` (lines 47-49): store the validated name and an
empty phone list. -/
def mkRecord (name : String) : Except String Record :=
  match mkName name with
  | Except.ok v => Except.ok ⟨v, [], 0⟩
  | Except.error e => Except.error e

/-- Python `Record.add_phone` (lines 51-56): construct a `Phone`; on success
append it, on `ValueError` catch it and print a report.  The returned
list is the printed output; the exception never escapes (the function is
total). -/
def Record.add_phone (r : Record) (phone : String) : Record × List String :=
  match mkPhone phone with
  | Except.ok v =>
      ({ r with phones := r.phones ++ [⟨r.nextId, v⟩], nextId := r.nextId + 1 }, [])
  | Except.error e => (r, ["Couldn\x27t find the phone: " ++ e])

/-- Loop body of `Record.remove_phone` (lines 58-63): drop the first
entry holding `v`; report whether one was found. -/
def removePhoneAux (phones : List PhoneObj) (v : String) : List PhoneObj × Bool :=
  match phones with
  | [] => ([], false)
  | p :: rest =>
    if p.value == v then (rest, true)
    else
      let res := removePhoneAux rest v
      (p :: res.1, res.2)

/-- Python `Record.remove_phone` (lines 58-63): returns the new record, the
boolean result, and the printed output. -/
def Record.remove_phone (r : Record) (v : String) : Record × Bool × List String :=
  let res := removePhoneAux r.phones v
  ({ r with phones := res.1 }, res.2, if res.2 then [] else ["Phone not found"])

/-- Loop body of `Record.edit_phone` (lines 65-75): at the first entry
holding `o`, construct a `Phone` from `n`; on success overwrite that
value of that entry in place (keeping its identity tag), on `ValueError` catch
it, print, and stop.  If no entry holds `o`, print "Phone not found".
Returns (new list, boolean result, printed output). -/
def editPhoneAux (phones : List PhoneObj) (o n : String) :
    List PhoneObj × Bool × List String :=
  match phones with
  | [] => ([], false, ["Phone not found"])
  | p :: rest =>
    if p.value == o then
      match mkPhone n with
      | Except.ok v => (⟨p.id, v⟩ :: rest, true, [])
      | Except.error e => (p :: rest, false, ["Couldn\x27t find the phone: " ++ e])
    else
      let res := editPhoneAux rest o n
      (p :: res.1, res.2.1, res.2.2)

/-- Python `Record.edit_phone` (lines 65-75).  On success a fresh `Phone`
instance (`validated_phone`) is constructed — the counter advances — but
only its value is copied onto the existing stored object. -/
def Record.edit_phone (r : Record) (o n : String) : Record × Bool × List String :=
  let res := editPhoneAux r.phones o n
  ({ r with phones := res.1, nextId := if res.2.1 then r.nextId + 1 else r.nextId },
   res.2.1, res.2.2)

/-- Python `Record.find_phone` (lines 77-82): first entry holding `v`, if any. -/
def Record.find_phone (r : Record) (v : String) : Option PhoneObj :=
  r.phones.find? (fun p => p.value == v)

/-- Python `Record.__str__` (lines 84-86). -/
def Record.render (r : Record) : String :=
  "Contact name: " ++ r.name ++ ", phones: " ++
    String.intercalate "; " (r.phones.map PhoneObj.value)

/-- An `AddressBook` is its `data` dict: an insertion-ordered mapping
from contact name to record, modelled as an association list (Python
dicts preserve insertion order, and overwriting a key keeps its
position). -/
abbrev AddressBook := List (String × Record)

/-- Dict assignment (key `k`, value `r`) on an insertion-ordered dict: replace
the entry at the existing position of `k`, or append a new one. -/
def addRecordAux (l : List (String × Record)) (k : String) (r : Record) :
    List (String × Record) :=
  match l with
  | [] => [(k, r)]
  | (k', r') :: rest =>
    if k' == k then (k, r) :: rest else (k', r') :: addRecordAux rest k r

/-- Python `AddressBook.add_record` (lines 99-100): key the record on its own
name. -/
def AddressBook.add_record (b : AddressBook) (r : Record) : AddressBook :=
  addRecordAux b r.name r

/-- Python `AddressBook.find` (lines 102-103): a plain dict lookup returning absent on a miss. -/
def AddressBook.find (b : AddressBook) (name : String) : Option Record :=
  match b with
  | [] => none
  | (k, r) :: rest => if k == name then some r else AddressBook.find rest name

/-- Dict deletion of the key `name`: drop the entry for `name`. -/
def deleteAux (l : List (String × Record)) (name : String) :
    List (String × Record) :=
  match l with
  | [] => []
  | (k, r) :: rest => if k == name then rest else (k, r) :: deleteAux rest name

/-- Python `AddressBook.delete` (lines 105-109): delete when present, else
print "Record not found" and leave the mapping alone.  The second
component is the printed output. -/
def AddressBook.delete (b : AddressBook) (name : String) :
    AddressBook × List String :=
  if b.any (fun p => p.1 == name) then (deleteAux b name, [])
  else (b, ["Record not found"])

/-- Python `AddressBook.__str__` (lines 111-112). -/
def AddressBook.render (b : AddressBook) : String :=
  String.intercalate "\n" (b.map (fun p => p.2.render))

/-- The public mutating-or-reading operations of `Record`, for stating
reachability invariants. -/
inductive RecordOp where
  | addP (s : String)
  | removeP (s : String)
  | editP (o n : String)
  | findP (s : String)

/-- Effect of one public `Record` operation on the record state
(`find_phone` reads only). -/
def Record.applyOp (r : Record) (op : RecordOp) : Record :=
  match op with
  | RecordOp.addP s => (r.add_phone s).1
  | RecordOp.removeP s => (r.remove_phone s).1
  | RecordOp.editP o n => (r.edit_phone o n).1
  | RecordOp.findP _ => r

/-- A record after an arbitrary sequence of public operations. -/
def Record.runOps (r : Record) (ops : List RecordOp) : Record :=
  ops.foldl Record.applyOp r

/-- The public operations of `AddressBook`. -/
inductive BookOp where
  | addR (r : Record)
  | del (name : String)
  | findR (name : String)

/-- Effect of one public `AddressBook` operation on the mapping
(`find` reads only). -/
def AddressBook.applyBookOp (b : AddressBook) (op : BookOp) : AddressBook :=
  match op with
  | BookOp.addR r => b.add_record r
  | BookOp.del n => (AddressBook.delete b n).1
  | BookOp.findR _ => b

/-- An address book reached from empty by an arbitrary sequence of
public operations. -/
def AddressBook.runBookOps (ops : List BookOp) : AddressBook :=
  ops.foldl AddressBook.applyBookOp []

/-- The separator join as the spec words it: the phone values joined
with a two-character separator, nothing added for the empty sequence. -/
def joinSemicolon : List String → String
  | [] => ""
  | [x] => x
  | x :: y :: rest => x ++ "; " ++ joinSemicolon (y :: rest)

/-- Sample records used to instantiate the theorems at concrete inputs. -/
def rJohn : Record := ⟨"John", [⟨0, "1234567890"⟩, ⟨1, "5555555555"⟩], 2⟩

/-- A record with no phones. -/
def rEmpty : Record := ⟨"Jane", [], 0⟩

/-! ## Helper lemmas -/

theorem phoneValid_iff (s : String) :
    phoneValid s = true ↔ s.length = 10 ∧ ∀ c ∈ s.data, c.isDigit = true := by
  simp [phoneValid, List.all_eq_true]

theorem mkPhone_ok_iff (s v : String) :
    mkPhone s = Except.ok v ↔ phoneValid s = true ∧ v = s := by
  unfold mkPhone
  cases h : phoneValid s <;> simp [h, eq_comm]

theorem mkPhone_invalid (s : String) (h : phoneValid s = false) :
    mkPhone s = Except.error "The phone should contain 10 digits" := by
  simp [mkPhone, h]

theorem editPhoneAux_invalid (l : List PhoneObj) (o n : String)
    (h : phoneValid n = false) :
    editPhoneAux l o n =
      (l, false, if l.any (fun p => p.value == o)
        then ["Couldn\x27t find the phone: The phone should contain 10 digits"]
        else ["Phone not found"]) := by
  induction l with
  | nil => simp [editPhoneAux]
  | cons p rest ih =>
    by_cases hp : p.value = o
    · simp [editPhoneAux, hp, mkPhone_invalid n h]
    · simp [editPhoneAux, hp, ih]

theorem editPhoneAux_id_map (l : List PhoneObj) (o n : String) :
    (editPhoneAux l o n).1.map PhoneObj.id = l.map PhoneObj.id := by
  induction l with
  | nil => simp [editPhoneAux]
  | cons p rest ih =>
    by_cases hp : p.value = o
    · cases hm : mkPhone n <;> simp [editPhoneAux, hp, hm]
    · simp [editPhoneAux, hp, ih]

/-! ## Claims -/

/-- C1: constructing a Phone from `s` fails with the message
"The phone should contain 10 digits" exactly when `s` is not ten digit
characters, and on success the held value is `s` itself. -/
theorem phone_construction_spec (s : String) :
    (mkPhone s = Except.error "The phone should contain 10 digits" ↔
      ¬ (s.length = 10 ∧ ∀ c ∈ s.data, c.isDigit = true)) ∧
    (∀ v, mkPhone s = Except.ok v → v = s) := by
  constructor
  · rw [← phoneValid_iff]
    cases h : phoneValid s <;> simp [mkPhone, h]
  · intro v hv
    exact ((mkPhone_ok_iff s v).1 hv).2

/-- C1 witness: a five-character string is rejected with the message. -/
theorem phone_construction_spec_witness :
    mkPhone "12345" = Except.error "The phone should contain 10 digits" :=
  (phone_construction_spec "12345").1.mpr (by decide)

/-- C3: an invalid candidate leaves the record untouched - `add_phone`
returns the very same record and only a printed report; the exception is
caught inside (the function is total and never fails). -/
theorem add_phone_invalid_spec (r : Record) (s : String)
    (hinv : phoneValid s = false) :
    r.add_phone s =
      (r, ["Couldn\x27t find the phone: The phone should contain 10 digits"]) := by
  simp [Record.add_phone, mkPhone_invalid s hinv]

/-- C3 witness at a concrete record and a five-digit candidate. -/
theorem add_phone_invalid_spec_witness :
    rJohn.add_phone "12345" =
      (rJohn, ["Couldn\x27t find the phone: The phone should contain 10 digits"]) :=
  add_phone_invalid_spec rJohn "12345" (by decide)

/-- C2: when some stored phone equals `o` but `n` fails validation,
`edit_phone` returns false and the phones list is exactly what it was;
the failure is reported, not propagated (the function is total). -/
theorem edit_phone_invalid_new_spec (r : Record) (o n : String)
    (hfound : ∃ p ∈ r.phones, p.value = o) (hinv : phoneValid n = false) :
    (r.edit_phone o n).2.1 = false ∧ (r.edit_phone o n).1.phones = r.phones := by
  simp [Record.edit_phone, editPhoneAux_invalid r.phones o n hinv]

/-- C2 witness: editing an existing phone to a five-digit value. -/
theorem edit_phone_invalid_new_spec_witness :
    (rJohn.edit_phone "1234567890" "12345").2.1 = false ∧
      (rJohn.edit_phone "1234567890" "12345").1.phones = rJohn.phones :=
  edit_phone_invalid_new_spec rJohn "1234567890" "12345"
    ⟨⟨0, "1234567890"⟩, by decide, rfl⟩ (by decide)

/-- C8 counterexample: a successful `edit_phone` does NOT replace the
stored Phone object - the instance at position 0 keeps its identity
(id 0) while its held value changes, i.e. the existing Phone object is
mutated in place, contradicting the claim. -/
theorem phone_mutated_in_place_cex :
    ((Record.mk "John" [⟨0, "1234567890"⟩] 1).edit_phone
        "1234567890" "1112223333").1.phones = [⟨0, "1112223333"⟩] ∧
    (Record.mk "John" [⟨0, "1234567890"⟩] 1).phones = [⟨0, "1234567890"⟩] := by
  constructor <;> rfl

theorem editPhoneAux_notfound (l : List PhoneObj) (o n : String)
    (h : ∀ p ∈ l, p.value ≠ o) :
    editPhoneAux l o n = (l, false, ["Phone not found"]) := by
  induction l with
  | nil => simp [editPhoneAux]
  | cons p rest ih =>
    have hp : p.value ≠ o := h p (List.mem_cons_self p rest)
    have hrest : ∀ q ∈ rest, q.value ≠ o := fun q hq => h q (List.mem_cons_of_mem p hq)
    simp [editPhoneAux, hp, ih hrest]

theorem editPhoneAux_found (l : List PhoneObj) (o n : String)
    (hv : phoneValid n = true) :
    ∀ i, ∀ hi : i < l.length, (l.get ⟨i, hi⟩).value = o →
    (∀ j, ∀ hj : j < l.length, j < i → (l.get ⟨j, hj⟩).value ≠ o) →
    editPhoneAux l o n = (l.set i ⟨(l.get ⟨i, hi⟩).id, n⟩, true, []) := by
  induction l with
  | nil => intro i hi; exact absurd hi (by simp)
  | cons p rest ih =>
    intro i hi hval hfirst
    cases i with
    | zero =>
      have hp : p.value = o := hval
      have hm : mkPhone n = Except.ok n := by simp [mkPhone, hv]
      simp [editPhoneAux, hp, hm]
    | succ i =>
      have hp : p.value ≠ o := hfirst 0 (by simp) (Nat.succ_pos i)
      have hrec := ih i (by simpa using hi) (by simpa using hval)
        (fun j hj hlt => by
          have := hfirst (j + 1) (by simpa using Nat.succ_lt_succ hj)
            (Nat.succ_lt_succ hlt)
          simpa using this)
      simp [editPhoneAux, hp, hrec]

/-- C4: with a valid new value, editing replaces the value of the first
entry equal to `o` at its original position, keeps every other entry and
the order, and returns true; if no entry equals `o`, the record is
returned untouched with false (and a "Phone not found" report). -/
theorem edit_phone_semantics_spec (r : Record) (o n : String)
    (hv : phoneValid n = true) :
    (∀ i, ∀ hi : i < r.phones.length, (r.phones.get ⟨i, hi⟩).value = o →
      (∀ j, ∀ hj : j < r.phones.length, j < i → (r.phones.get ⟨j, hj⟩).value ≠ o) →
      (r.edit_phone o n).2.1 = true ∧
      (r.edit_phone o n).1.phones =
        r.phones.set i ⟨(r.phones.get ⟨i, hi⟩).id, n⟩) ∧
    ((∀ p ∈ r.phones, p.value ≠ o) →
      r.edit_phone o n = (r, false, ["Phone not found"])) := by
  constructor
  · intro i hi hval hfirst
    simp [Record.edit_phone, editPhoneAux_found r.phones o n hv i hi hval hfirst]
  · intro h
    simp [Record.edit_phone, editPhoneAux_notfound r.phones o n h]

/-- C4 witness: replacing the first phone of a concrete two-phone
record. -/
theorem edit_phone_semantics_spec_witness :
    (rJohn.edit_phone "1234567890" "1112223333").2.1 = true ∧
    (rJohn.edit_phone "1234567890" "1112223333").1.phones =
      rJohn.phones.set 0 ⟨(rJohn.phones.get ⟨0, by decide⟩).id, "1112223333"⟩ :=
  (edit_phone_semantics_spec rJohn "1234567890" "1112223333" (by decide)).1
    0 (by decide) rfl (fun j hj hlt => absurd hlt (by omega))

/-- C8 amended: `edit_phone` never replaces a stored Phone instance: the
identity tags of the stored sequence are preserved exactly, in order -
the edit mutates the value of the found object in place.  (A fresh Phone is
constructed only to validate the new value and is then discarded.) -/
theorem edit_phone_preserves_instance_ids (r : Record) (o n : String) :
    (r.edit_phone o n).1.phones.map PhoneObj.id = r.phones.map PhoneObj.id := by
  simp [Record.edit_phone, editPhoneAux_id_map]

/-- Tail of the semicolon join: a separator before every element. -/
def joinSemicolonSep : List String → String
  | [] => ""
  | x :: xs => "; " ++ x ++ joinSemicolonSep xs

theorem intercalate_go_eq (l : List String) :
    ∀ acc : String, String.intercalate.go acc "; " l = acc ++ joinSemicolonSep l := by
  induction l with
  | nil => intro acc; simp [String.intercalate.go, joinSemicolonSep]
  | cons x xs ih =>
    intro acc
    simp [String.intercalate.go, joinSemicolonSep, ih, String.append_assoc]

theorem joinSemicolon_eq_sep (x : String) (xs : List String) :
    joinSemicolon (x :: xs) = x ++ joinSemicolonSep xs := by
  induction xs generalizing x with
  | nil => simp [joinSemicolon, joinSemicolonSep]
  | cons y ys ih =>
    simp [joinSemicolon, joinSemicolonSep, ih y, String.append_assoc]

theorem intercalate_semicolon (l : List String) :
    String.intercalate "; " l = joinSemicolon l := by
  cases l with
  | nil => rfl
  | cons x xs =>
    simp [String.intercalate, intercalate_go_eq xs x, joinSemicolon_eq_sep]

/-- C7: the rendered form is exactly the header followed by the phone
values joined with a semicolon separator in sequence order; with no
phones nothing follows the final space. -/
theorem render_spec (r : Record) :
    r.render = "Contact name: " ++ r.name ++ ", phones: " ++
      joinSemicolon (r.phones.map PhoneObj.value) ∧
    (r.phones = [] →
      r.render = "Contact name: " ++ r.name ++ ", phones: ") := by
  constructor
  · simp [Record.render, intercalate_semicolon]
  · intro h
    simp [Record.render, h, String.intercalate]

/-- C7 witness: a record with no phones renders as the bare header. -/
theorem render_spec_witness :
    rEmpty.render = "Contact name: " ++ rEmpty.name ++ ", phones: " :=
  (render_spec rEmpty).2 rfl

theorem find_addRecordAux_self (l : List (String × Record)) (k : String) (r : Record) :
    AddressBook.find (addRecordAux l k r) k = some r := by
  induction l with
  | nil => simp [addRecordAux, AddressBook.find]
  | cons p rest ih =>
    obtain ⟨k', r'⟩ := p
    by_cases h : k' = k
    · simp [addRecordAux, h, AddressBook.find]
    · simp [addRecordAux, h, AddressBook.find, ih]

theorem find_addRecordAux_other (l : List (String × Record)) (k : String)
    (r : Record) (k2 : String) (h : k2 ≠ k) :
    AddressBook.find (addRecordAux l k r) k2 = AddressBook.find l k2 := by
  induction l with
  | nil => simp [addRecordAux, AddressBook.find, Ne.symm h]
  | cons p rest ih =>
    obtain ⟨k', r'⟩ := p
    by_cases hk : k' = k
    · subst hk
      simp [addRecordAux, AddressBook.find, Ne.symm h]
    · simp [addRecordAux, hk, AddressBook.find, ih]

theorem keys_addRecordAux (l : List (String × Record)) (k : String) (r : Record) :
    (addRecordAux l k r).map Prod.fst =
      if l.any (fun p => p.1 == k) then l.map Prod.fst
      else l.map Prod.fst ++ [k] := by
  induction l with
  | nil => simp [addRecordAux]
  | cons p rest ih =>
    obtain ⟨k', r'⟩ := p
    by_cases h : k' = k
    · subst h
      simp [addRecordAux]
    · rw [addRecordAux, if_neg (by simp [h])]
      simp only [List.map_cons, List.any_cons]
      rw [ih]
      by_cases hrest : rest.any (fun p => p.1 == k) = true <;> simp [h, hrest]

/-- C5: `add_record` keys the record on its own name: the key now maps
to `r` (so an immediate `find` returns a record rendering exactly as `r`
does), every other key is untouched, and the key sequence either stays
as it was (silent overwrite, no duplicate) or gains exactly the one new
key at the end. -/
theorem add_record_find_spec (b : AddressBook) (r : Record) :
    (b.add_record r).find r.name = some r ∧
    (∀ r', (b.add_record r).find r.name = some r' → r'.render = r.render) ∧
    (∀ k, k ≠ r.name → (b.add_record r).find k = b.find k) ∧
    ((b.add_record r).map Prod.fst =
      if b.any (fun p => p.1 == r.name) then b.map Prod.fst
      else b.map Prod.fst ++ [r.name]) := by
  refine ⟨find_addRecordAux_self b r.name r, ?_,
    fun k hk => find_addRecordAux_other b r.name r k hk,
    keys_addRecordAux b r.name r⟩
  intro r' h
  rw [AddressBook.add_record, find_addRecordAux_self] at h
  cases h
  rfl

/-- C5 witness: adding a concrete record to the empty book and finding
it again. -/
theorem add_record_find_spec_witness :
    (AddressBook.add_record [] rJohn).find rJohn.name = some rJohn :=
  (add_record_find_spec [] rJohn).1

theorem find_none_any_false (b : AddressBook) (name : String)
    (h : b.find name = none) : b.any (fun p => p.1 == name) = false := by
  induction b with
  | nil => simp
  | cons p rest ih =>
    obtain ⟨k, r⟩ := p
    by_cases hk : k = name
    · rw [AddressBook.find] at h
      simp [hk] at h
    · rw [AddressBook.find] at h
      simp only [hk, beq_iff_eq, if_false] at h
      simp [hk, ih h]

theorem deleteAux_decomp (pre : List (String × Record)) (name : String)
    (r : Record) (post : List (String × Record))
    (hpre : ∀ p ∈ pre, p.1 ≠ name) :
    deleteAux (pre ++ (name, r) :: post) name = pre ++ post := by
  induction pre with
  | nil => simp [deleteAux]
  | cons q qre ih =>
    have hq : q.1 ≠ name := hpre q (List.mem_cons_self q qre)
    have hqre : ∀ p ∈ qre, p.1 ≠ name :=
      fun p hp => hpre p (List.mem_cons_of_mem q hp)
    obtain ⟨k, rr⟩ := q
    simp only [ne_eq] at hq
    simp [deleteAux, hq, ih hqre]

/-- C6: deleting an absent name performs no mutation at all - the
mapping comes back unchanged together with the "Record not found"
report; deleting a present name removes exactly that entry (and reports
nothing). -/
theorem delete_record_spec (b : AddressBook) (name : String) :
    (b.find name = none → b.delete name = (b, ["Record not found"])) ∧
    (∀ pre r post, b = pre ++ (name, r) :: post → (∀ p ∈ pre, p.1 ≠ name) →
      b.delete name = (pre ++ post, [])) := by
  constructor
  · intro h
    simp [AddressBook.delete, find_none_any_false b name h]
  · intro pre r post hb hpre
    subst hb
    have hany : (pre ++ (name, r) :: post).any (fun p => p.1 == name) = true := by
      simp [List.any_eq_true]
    simp [AddressBook.delete, hany, deleteAux_decomp pre name r post hpre]

/-- C6 witness: deleting from the empty book reports and returns the
book unchanged. -/
theorem delete_record_spec_witness :
    AddressBook.delete [] "Jane" = ([], ["Record not found"]) :=
  (delete_record_spec [] "Jane").1 rfl

/-- Every phone stored in the record is a validated ten-digit string. -/
def phonesValid (r : Record) : Prop :=
  ∀ p ∈ r.phones, phoneValid p.value = true

theorem removePhoneAux_subset (l : List PhoneObj) (v : String) :
    ∀ p ∈ (removePhoneAux l v).1, p ∈ l := by
  induction l with
  | nil => simp [removePhoneAux]
  | cons q rest ih =>
    intro p hp
    by_cases h : q.value = v
    · simp [removePhoneAux, h] at hp
      exact List.mem_cons_of_mem q hp
    · simp [removePhoneAux, h] at hp
      rcases hp with rfl | hp
      · exact List.mem_cons_self p rest
      · exact List.mem_cons_of_mem q (ih p hp)

theorem editPhoneAux_mem_valid (l : List PhoneObj) (o n : String) :
    ∀ p ∈ (editPhoneAux l o n).1, p ∈ l ∨ phoneValid p.value = true := by
  induction l with
  | nil => simp [editPhoneAux]
  | cons q rest ih =>
    intro p hp
    by_cases h : q.value = o
    · cases hm : mkPhone n with
      | ok v =>
        simp [editPhoneAux, h, hm] at hp
        rcases hp with rfl | hp
        · right
          have := (mkPhone_ok_iff n v).1 hm
          simpa [this.2] using this.1
        · exact Or.inl (List.mem_cons_of_mem q hp)
      | error e =>
        simp [editPhoneAux, h, hm] at hp
        rcases hp with rfl | hp
        · exact Or.inl (List.mem_cons_self p rest)
        · exact Or.inl (List.mem_cons_of_mem q hp)
    · simp [editPhoneAux, h] at hp
      rcases hp with rfl | hp
      · exact Or.inl (List.mem_cons_self p rest)
      · rcases ih p hp with hm | hv
        · exact Or.inl (List.mem_cons_of_mem q hm)
        · exact Or.inr hv

theorem applyOp_preserves_valid (r : Record) (op : RecordOp)
    (h : phonesValid r) : phonesValid (r.applyOp op) := by
  cases op with
  | addP s =>
    cases hm : mkPhone s with
    | ok v =>
      intro p hp
      simp [Record.applyOp, Record.add_phone, hm] at hp
      rcases hp with hp | rfl
      · exact h p hp
      · have := (mkPhone_ok_iff s v).1 hm
        simpa [this.2] using this.1
    | error e =>
      intro p hp
      simp [Record.applyOp, Record.add_phone, hm] at hp
      exact h p hp
  | removeP s =>
    intro p hp
    simp [Record.applyOp, Record.remove_phone] at hp
    exact h p (removePhoneAux_subset r.phones s p hp)
  | editP o n =>
    intro p hp
    simp [Record.applyOp, Record.edit_phone] at hp
    rcases editPhoneAux_mem_valid r.phones o n p hp with hm | hv
    · exact h p hm
    · exact hv
  | findP s => exact h

theorem runOps_preserves_valid (r : Record) (h : phonesValid r)
    (ops : List RecordOp) : phonesValid (r.runOps ops) := by
  induction ops generalizing r with
  | nil => exact h
  | cons op rest ih =>
    have : Record.runOps r (op :: rest) = Record.runOps (r.applyOp op) rest := rfl
    rw [this]
    exact ih (r.applyOp op) (applyOp_preserves_valid r op h)

/-- C9: every record reachable from construction by any sequence of the
public operations stores only phones whose value is exactly ten digit
characters. -/
theorem record_phones_always_valid (name : String) (r : Record)
    (h : mkRecord name = Except.ok r) (ops : List RecordOp) :
    ∀ p ∈ (r.runOps ops).phones, phoneValid p.value = true := by
  apply runOps_preserves_valid
  intro p hp
  rw [mkRecord] at h
  cases hm : mkName name with
  | ok v =>
    rw [hm] at h
    cases h
    simp at hp
  | error e =>
    rw [hm] at h
    cases h

/-- C9 witness: the phone stored after one valid `add_phone` on a fresh
record is validated. -/
theorem record_phones_always_valid_witness :
    phoneValid (PhoneObj.mk 0 "1234567890").value = true :=
  record_phones_always_valid "John" ⟨"John", [], 0⟩ rfl
    [RecordOp.addP "1234567890"] ⟨0, "1234567890"⟩ (by decide)

/-- Every entry of the mapping stores a record under exactly its own
contact name. -/
def bookKeyed (b : AddressBook) : Prop :=
  ∀ p ∈ b, p.2.name = p.1

theorem addRecordAux_keyed (l : List (String × Record)) (r : Record)
    (h : bookKeyed l) : bookKeyed (addRecordAux l r.name r) := by
  induction l with
  | nil =>
    intro p hp
    simp [addRecordAux] at hp
    simp [hp]
  | cons q rest ih =>
    obtain ⟨k', r'⟩ := q
    have hq : r'.name = k' := h (k', r') (List.mem_cons_self _ rest)
    have hrest : bookKeyed rest := fun p hp => h p (List.mem_cons_of_mem _ hp)
    intro p hp
    by_cases hk : k' = r.name
    · simp [addRecordAux, hk] at hp
      rcases hp with rfl | hp
      · rfl
      · exact hrest p hp
    · simp [addRecordAux, hk] at hp
      rcases hp with rfl | hp
      · exact hq
      · exact ih hrest p hp

theorem deleteAux_subset (l : List (String × Record)) (name : String) :
    ∀ p ∈ deleteAux l name, p ∈ l := by
  induction l with
  | nil => simp [deleteAux]
  | cons q rest ih =>
    obtain ⟨k, r⟩ := q
    intro p hp
    by_cases h : k = name
    · simp [deleteAux, h] at hp
      exact List.mem_cons_of_mem _ hp
    · simp [deleteAux, h] at hp
      rcases hp with rfl | hp
      · exact List.mem_cons_self _ rest
      · exact List.mem_cons_of_mem _ (ih p hp)

theorem applyBookOp_keyed (b : AddressBook) (op : BookOp)
    (h : bookKeyed b) : bookKeyed (b.applyBookOp op) := by
  cases op with
  | addR r => exact addRecordAux_keyed b r h
  | del n =>
    rw [AddressBook.applyBookOp, AddressBook.delete]
    by_cases hany : b.any (fun p => p.1 == n) = true
    · simp only [hany, if_true]
      exact fun p hp => h p (deleteAux_subset b n p hp)
    · simp only [hany, if_false]
      exact h
  | findR n => exact h

/-- C10: every address book reachable from empty by any sequence of the
public operations keys each record under exactly its own contact name. -/
theorem book_keys_match_record_names (ops : List BookOp) :
    ∀ p ∈ AddressBook.runBookOps ops, p.2.name = p.1 := by
  suffices hgen : ∀ b : AddressBook, bookKeyed b →
      bookKeyed (ops.foldl AddressBook.applyBookOp b) from
    hgen [] (by intro p hp; cases hp)
  induction ops with
  | nil => exact fun b hb => hb
  | cons op rest ih =>
    intro b hb
    exact ih (b.applyBookOp op) (applyBookOp_keyed b op hb)

/-- C10 witness: after adding a concrete record, the stored pair is
keyed by the name of that record. -/
theorem book_keys_match_record_names_witness :
    (("John", rJohn) : String × Record).2.name = ("John", rJohn).1 :=
  book_keys_match_record_names [BookOp.addR rJohn] ("John", rJohn) (by decide)
